import Mathlib

/-!
Shallow embedding of the COPEL invoice interpreter (src/main.py).

Modelling conventions:
* Python floats are modelled as rationals; every arithmetic step of the source
  is mirrored exactly, and Python round(x, n) is modelled as exact half-even
  rounding of rationals (the binary representation error of IEEE doubles is
  outside the model, as are the IEEE specials inf and nan).
* Python regular expressions are hand-compiled to scanners over character
  lists.  For each pattern of the source the backtracking behaviour of the
  CPython engine was analysed; comments at each scanner record why the
  resulting deterministic scanner is exact for that pattern.
* Python str.upper is modelled characterwise for the character repertoire of
  the documents (ASCII plus accented Portuguese letters); similarly \d, \s
  and \w denote their ASCII meaning.
* Recursions over scan positions use an explicit fuel argument started at
  (length of the scanned text) + 1; every scan step advances by at least one
  character, so the fuel never runs out.
-/

set_option maxRecDepth 100000

/- The Batteries rational operations are irreducible by default, which blocks
elaborator-side evaluation of ground facts; making them semireducible lets
plain decide evaluate them (the kernel is unaffected either way). -/
attribute [local semireducible] Rat.add Rat.mul Rat.inv Rat.sub Rat.ofScientific

/-- ASCII decimal digit, the model of regex \d. -/
def isDig (c : Char) : Bool := '0' ≤ c && c ≤ '9'

/-- Whitespace, the model of regex \s and of the default str.strip set. -/
def isWsB (c : Char) : Bool :=
  c == ' ' || c == '\t' || c == '\n' || c == '\r' || c == '\x0b' || c == '\x0c'

/-- Word character, the model of regex \w (ASCII). -/
def wordChar (c : Char) : Bool :=
  isDig c || ('A' ≤ c && c ≤ 'Z') || ('a' ≤ c && c ≤ 'z') || c == '_'

/-- Characterwise model of Python str.upper restricted to the characters
occurring in these invoices. -/
def upperChar (c : Char) : Char :=
  if 'a' ≤ c && c ≤ 'z' then Char.ofNat (c.toNat - 32)
  else if c = 'á' then 'Á' else if c = 'é' then 'É' else if c = 'í' then 'Í'
  else if c = 'ó' then 'Ó' else if c = 'ú' then 'Ú' else if c = 'â' then 'Â'
  else if c = 'ê' then 'Ê' else if c = 'ô' then 'Ô' else if c = 'ã' then 'Ã'
  else if c = 'õ' then 'Õ' else if c = 'ç' then 'Ç' else c

/-- text.upper() on a character list. -/
def pyUp (cs : List Char) : List Char := cs.map upperChar

/-- str.strip(): drop whitespace at both ends. -/
def stripWs (cs : List Char) : List Char :=
  ((cs.dropWhile isWsB).reverse.dropWhile isWsB).reverse

/-- Numeric value of one digit character. -/
def digitVal (c : Char) : ℕ := c.toNat - 48

/-- Numeric value of a digit run. -/
def digitsVal (ds : List Char) : ℕ := ds.foldl (fun a c => 10 * a + digitVal c) 0

/-- Maximal leading digit run and the remainder. -/
def takeDigits : List Char → List Char × List Char
  | [] => ([], [])
  | c :: r =>
      if isDig c then
        match takeDigits r with
        | (ds, rest) => (c :: ds, rest)
      else ([], c :: r)

/-- Exponent part of a Python float literal: the digits after e/E with an
optional sign; the remainder must be empty. -/
def pyFloatExp (v : ℚ) (cs : List Char) : Option ℚ :=
  match (match cs with
         | '-' :: r => (true, r)
         | '+' :: r => (false, r)
         | _ => (false, cs) : Bool × List Char) with
  | (eneg, cs1) =>
    match takeDigits cs1 with
    | ([], _) => none
    | (es, rest) =>
        if rest ≠ [] then none
        else some (v * (10 : ℚ) ^ (if eneg then -(digitsVal es : ℤ) else (digitsVal es : ℤ)))

/-- After the mantissa of a Python float literal: end of input or an exponent. -/
def pyFloatFinish (v : ℚ) (cs : List Char) : Option ℚ :=
  match cs with
  | [] => some v
  | 'e' :: r => pyFloatExp v r
  | 'E' :: r => pyFloatExp v r
  | _ => none

/-- Model of Python float(str) on decimal literals: optional surrounding
whitespace, optional sign, digits with an optional decimal point (at least one
digit overall), optional exponent.  Exotic inputs accepted by CPython (inf,
nan, underscore digit separators) are outside the numeric domain of this
rational model and yield none. -/
def pyFloatSigned (neg : Bool) (body : List Char) : Option ℚ :=
  match takeDigits body with
  | ([], '.' :: r) =>
      (match takeDigits r with
       | ([], _) => none
       | (fs, rest) =>
           (pyFloatFinish ((digitsVal fs : ℚ) / (10 : ℚ) ^ fs.length) rest).map
             (fun v => if neg then -v else v))
  | ([], _) => none
  | (ds, '.' :: r) =>
      (match takeDigits r with
       | (fs, rest) =>
           (pyFloatFinish ((digitsVal ds : ℚ) + (digitsVal fs : ℚ) / (10 : ℚ) ^ fs.length) rest).map
             (fun v => if neg then -v else v))
  | (ds, rest) => (pyFloatFinish (digitsVal ds : ℚ) rest).map (fun v => if neg then -v else v)

/-- Model of Python float(str): dispatch on the optional sign, then parse the
unsigned body with pyFloatSigned. -/
def pyFloatL (cs0 : List Char) : Option ℚ :=
  match stripWs cs0 with
  | '-' :: r => pyFloatSigned true r
  | '+' :: r => pyFloatSigned false r
  | cs => pyFloatSigned false cs

/-- str.replace("R$", "") : delete every occurrence, scanning left to right. -/
def removeRS : List Char → List Char
  | 'R' :: '$' :: r => removeRS r
  | c :: r => c :: removeRS r
  | [] => []

/-- The cleaning chain of parse_currency (src/main.py lines 16-19): strip,
delete "R$", delete spaces, turn "(" into "-", delete ")", delete ".",
turn "," into ".". -/
def cleanCurrency (cs : List Char) : List Char :=
  let s1 := removeRS (stripWs cs)
  let s2 := s1.filter (fun c => c ≠ ' ')
  let s3 := s2.map (fun c => if c = '(' then '-' else c)
  let s4 := s3.filter (fun c => c ≠ ')')
  let s5 := s4.filter (fun c => c ≠ '.')
  s5.map (fun c => if c = ',' then '.' else c)

/-- Optional fractional tail of the fallback pattern -?\d+(\.\d+)? . -/
def decimalTail (r : List Char) : List Char :=
  match r with
  | '.' :: t =>
      (match takeDigits t with
       | ([], _) => []
       | (fs, _) => '.' :: fs)
  | _ => []

/-- re.search of -?\d+(\.\d+)? : leftmost match, greedy digit runs.  The
pattern starts with a digit or a minus followed by a digit, so scanning the
start position left to right and taking maximal runs is exact. -/
def searchDecimal : List Char → Option (List Char)
  | [] => none
  | '-' :: r =>
      match takeDigits r with
      | ([], _) => searchDecimal r
      | (ds, r2) => some ('-' :: (ds ++ decimalTail r2))
  | c :: r =>
      if isDig c then
        match takeDigits (c :: r) with
        | (ds, r2) => some (ds ++ decimalTail r2)
      else searchDecimal r

/-- parse_currency (src/main.py lines 12-24). -/
def parse_currency (s : String) : ℚ :=
  if s.data = [] then 0
  else
    let c := cleanCurrency s.data
    match pyFloatL c with
    | some v => v
    | none =>
        match searchDecimal c with
        | some t => (pyFloatL t).getD 0
        | none => 0

/-- The cleaning chain of parse_qty_kwh_token: delete ".", turn ","
into ".". -/
def qtyClean (cs : List Char) : List Char :=
  (cs.filter (fun c => c ≠ '.')).map (fun c => if c = ',' then '.' else c)

/-- parse_qty_kwh_token (src/main.py lines 26-36): strip, delete ".",
turn "," into ".", then float, with 0.0 on failure. -/
def parse_qty_kwh_token (s : String) : ℚ :=
  if s.data = [] then 0
  else (pyFloatL (qtyClean (stripWs s.data))).getD 0

/-- Maximal run of thousands groups, each a dot followed by exactly three
digits: the greedy expansion of (?:\.\d{3})* . -/
def takeGroups : List Char → List Char × List Char
  | '.' :: a :: b :: c :: r =>
      if isDig a && isDig b && isDig c then
        match takeGroups r with
        | (g, rest) => ('.' :: a :: b :: c :: g, rest)
      else ([], '.' :: a :: b :: c :: r)
  | cs => ([], cs)

/-- Body of the monetary pattern \d{1,3}(?:\.\d{3})*(?:,\d{2}) at one
position.  Determinization argument: \d{1,3} greedily takes min(3, run) of the
maximal digit run; if the run is longer than 3 every backtrack leaves a digit
where either "." or "," is required, so the whole attempt fails; if fewer
groups than the greedy number are taken the next character is "." where ","
is required, so group backtracking can never succeed either. -/
def matchMcore (cs : List Char) : Option (List Char × List Char) :=
  match takeDigits cs with
  | ([], _) => none
  | (ds, r) =>
    if 3 < ds.length then none
    else
      match takeGroups r with
      | (g, r2) =>
        match r2 with
        | ',' :: a :: b :: r3 =>
            if isDig a && isDig b then some (ds ++ g ++ [',', a, b], r3) else none
        | _ => none

/-- The monetary pattern -?\d{1,3}(?:\.\d{3})*(?:,\d{2}) at one position.
When the first character is "-" the variant without the sign cannot match
(it would need a digit at the "-"), so trying only the signed variant there
is exact. -/
def matchM (cs : List Char) : Option (List Char × List Char) :=
  match cs with
  | '-' :: r => (matchMcore r).map (fun p => ('-' :: p.1, p.2))
  | _ => matchMcore cs

/-- Body of the quantity pattern \d{1,3}(?:\.\d{3})*(?:,\d{1,2})? at one
position.  With the optional tail the greedy path always succeeds, so no
backtracking is reachable: if the digit run is longer than 3 the match is the
first three digits alone (groups and tail cannot start with a digit); the
comma tail takes two digits, else one, else nothing. -/
def matchQcore (cs : List Char) : Option (List Char × List Char) :=
  match takeDigits cs with
  | ([], _) => none
  | (ds, r) =>
    if 3 < ds.length then some (ds.take 3, ds.drop 3 ++ r)
    else
      match takeGroups r with
      | (g, r2) =>
        match r2 with
        | ',' :: a :: b :: r3 =>
            if isDig a && isDig b then some (ds ++ g ++ [',', a, b], r3)
            else if isDig a then some (ds ++ g ++ [',', a], b :: r3)
            else some (ds ++ g, ',' :: a :: b :: r3)
        | ',' :: a :: [] =>
            if isDig a then some (ds ++ g ++ [',', a], [])
            else some (ds ++ g, [',', a])
        | rest => some (ds ++ g, rest)

/-- The quantity pattern -?\d{1,3}(?:\.\d{3})*(?:,\d{1,2})? at one position. -/
def matchQ (cs : List Char) : Option (List Char × List Char) :=
  match cs with
  | '-' :: r => (matchQcore r).map (fun p => ('-' :: p.1, p.2))
  | _ => matchQcore cs

/-- re.findall: scan the start position left to right; on a match, emit it and
resume at its end (matches never overlap).  Every step consumes at least one
character, so fuel (length + 1) never runs out. -/
def scanAll (m1 : List Char → Option (List Char × List Char)) : ℕ → List Char → List (List Char)
  | 0, _ => []
  | _ + 1, [] => []
  | n + 1, c :: r =>
      match m1 (c :: r) with
      | some (m, rest) => m :: scanAll m1 n rest
      | none => scanAll m1 n r

/-- All monetary tokens of a line, as matched substrings (re.findall at
src/main.py lines 40 and 97 and 191). -/
def findallM (s : String) : List String :=
  (scanAll matchM (s.data.length + 1) s.data).map String.mk

/-- find_monetary_in_line (src/main.py lines 38-41). -/
def find_monetary_in_line (s : String) : List ℚ :=
  (findallM s).map parse_currency

/-- All quantity tokens of a line, as matched substrings (re.findall at
src/main.py line 46). -/
def findallQ (s : String) : List String :=
  (scanAll matchQ (s.data.length + 1) s.data).map String.mk

/-- find_qty_candidates (src/main.py lines 43-47). -/
def find_qty_candidates (s : String) : List ℚ :=
  (findallQ s).map parse_qty_kwh_token


/-- Half-even integer rounding of a rational, the model of Python round on an
exactly representable value. -/
def rnd (q : ℚ) : ℤ :=
  let f := ⌊q⌋
  let r := q - (f : ℚ)
  if r < mkRat 1 2 then f
  else if mkRat 1 2 < r then f + 1
  else if f % 2 = 0 then f else f + 1

/-- Python round(x, n) as exact half-even rounding to n decimal places. -/
def roundTo (n : ℕ) (q : ℚ) : ℚ :=
  mkRat (rnd (q * (Rat.ofInt ((10 : ℕ) ^ n)))) ((10 : ℕ) ^ n)

/-- str.find: index (in characters) of the first occurrence of the pattern,
or none. -/
def subFindAux (needle : List Char) : ℕ → List Char → Option ℕ
  | _, [] => none
  | i, c :: r => if needle.isPrefixOf (c :: r) then some i else subFindAux needle (i + 1) r

/-- Substring containment (the Python "in" operator on str). -/
def strContains (hay needle : List Char) : Bool :=
  (subFindAux needle 0 hay).isSome

/-- str.splitlines restricted to the line ends occurring in this pipeline
(LF, CRLF, CR): split at each terminator, and emit a final unterminated
segment only if it is nonempty. -/
def linesOfAux (cur : List Char) : List Char → List (List Char)
  | [] => if cur = [] then [] else [cur.reverse]
  | '\r' :: '\n' :: r => cur.reverse :: linesOfAux [] r
  | '\r' :: r => cur.reverse :: linesOfAux [] r
  | '\n' :: r => cur.reverse :: linesOfAux [] r
  | c :: r => linesOfAux (c :: cur) r

/-- All lines of a text, in order. -/
def linesOf (cs : List Char) : List (List Char) := linesOfAux [] cs

/-- First occurrence of both markers, the start strictly before the end
(the condition end_idx <= start_idx of the source sends the locator to the
next fallback). -/
def markerPick (ms me : List Char) (up : List Char) : Option (ℕ × ℕ) :=
  match subFindAux ms 0 up, subFindAux me 0 up with
  | some s, some e => if e ≤ s then none else some (s, e)
  | _, _ => none

/-- The nonblank whitespace-trimmed lines of the slice text[s : e + 29]
(both marker branches of the source use the 29-character tail, the length of
the primary end marker). -/
def blockLinesAt (text : String) (s e : ℕ) : List String :=
  (((linesOf ((text.data.drop s).take (e + 29 - s))).map stripWs).filter
    (fun l => l ≠ [])).map String.mk

/-- extract_invoice_items_block (src/main.py lines 52-70): block between
"ENERGIA ELET CONSUMO" and "CONT ILUMIN PUBLICA MUNICIPIO" on the uppercased
text; fallback markers "ENERGIA ELET" and "ILUMIN"; final fallback: every
nonblank line of the whole text, unstripped. -/
def extract_invoice_items_block (text : String) : List String :=
  let up := pyUp text.data
  match
    (match markerPick "ENERGIA ELET CONSUMO".data "CONT ILUMIN PUBLICA MUNICIPIO".data up with
     | some p => some p
     | none => markerPick "ENERGIA ELET".data "ILUMIN".data up) with
  | some (s, e) => blockLinesAt text s e
  | none =>
      ((linesOf text.data).filter (fun l => stripWs l ≠ [])).map String.mk

/-- Number of whitespace-separated words, the model of len(line.split()).
The boolean argument records whether the previous character was inside a
word. -/
def wordCountAux : Bool → List Char → ℕ
  | _, [] => 0
  | inw, c :: r =>
      if isWsB c then wordCountAux false r
      else (if inw then 0 else 1) + wordCountAux true r

/-- len(line.split()) on a character list. -/
def wordCount (cs : List Char) : ℕ := wordCountAux false cs

/-- The eight label alternatives of the header-skip pattern of
classify_and_sum_lines (src/main.py line 92). -/
def headerKeys : List (List Char) :=
  ["ENERGIA".data, "KWH".data, "UN".data, "ICMS".data, "PIS".data,
   "COFINS".data, "HISTÓRICO".data, "CONSUMO".data]

/-- The header-skip test of classify_and_sum_lines (src/main.py lines 92-93):
re.match of the anchored label alternation on the uppercased line, together
with fewer than 3 whitespace-separated words. -/
def isHeaderSkip (line : String) : Bool :=
  (headerKeys.any fun k => k.isPrefixOf (pyUp line.data)) && wordCount line.data < 3

/-- One sequential step of a pattern p1.*p2...: all parts must occur in order
with no newline inside any gap (regex . does not match a newline); the parts
argument lists the remaining literal parts.  Fuel: every step either consumes
a character of the text or one part, so (length + parts + 1) suffices. -/
def chainFrom : ℕ → List (List Char) → List Char → Bool
  | _, [], _ => true
  | 0, _ :: _, _ => false
  | n + 1, p :: ps, cs =>
      (p.isPrefixOf cs && chainFrom n ps (cs.drop p.length)) ||
      (match cs with
       | [] => false
       | c :: r => decide (c ≠ '\n') && chainFrom n (p :: ps) r)

/-- re.search existence of a pattern p1.*p2...: the first part may start
anywhere (the text before the match start is unconstrained), the rest chains
with newline-free gaps. -/
def searchSeq : ℕ → List (List Char) → List Char → Bool
  | _, [], _ => true
  | 0, _ :: _, _ => false
  | n + 1, p :: ps, cs =>
      (p.isPrefixOf cs && chainFrom (cs.length + ps.length + 1) ps (cs.drop p.length)) ||
      (match cs with
       | [] => false
       | _ :: r => searchSeq n (p :: ps) r)

/-- The injected-energy pattern of classify_and_sum_lines (src/main.py line
143): an alternation of three sequential patterns, searched in the uppercased
line; existence of any alternative anywhere. -/
def injSearch (up : List Char) : Bool :=
  searchSeq (up.length + 1) ["ENERGIA INJ.".data, "OUC MPT".data, "TE".data] up ||
  searchSeq (up.length + 1) ["ENERGIA INJ.".data, "OUC MPT".data, "TUS".data] up ||
  searchSeq (up.length + 1) ["ENERGIA INJ.".data, "TUSD".data] up

/-- Per-line extracted fields of classify_and_sum_lines (src/main.py lines
95-133): quantity, value and the per-line tax guesses. -/
structure LineF where
  qtd : ℚ
  valor : ℚ
  pis : ℚ
  cofins : ℚ
  icms : ℚ
deriving DecidableEq

/-- Python max(kwargs, key=abs): the first element of maximal absolute value
(a later element replaces the current best only when strictly larger). -/
def maxAbsQ (q : ℚ) (qs : List ℚ) : ℚ :=
  qs.foldl (fun b x => if |b| < |x| then x else b) q

/-- The positional column heuristics of classify_and_sum_lines (src/main.py
lines 95-133): with at least 3 monetary tokens the last is ICMS and the third
from last the value; with exactly 2 the first is the value and the second is
ICMS only when it does not exceed the value, else a PIS/COFINS contribution;
with 1 it is the value.  The quantity is the quantity candidate of largest
absolute value.  The per-line pis field is never set by the source. -/
def lineFields (line : String) : LineF :=
  let monetary := findallM line
  let qtys := find_qty_candidates line
  let n := monetary.length
  let vci : ℚ × ℚ × ℚ :=
    if 3 ≤ n then
      (parse_currency (monetary.getD (n - 3) ""), 0, parse_currency (monetary.getD (n - 1) ""))
    else if n = 2 then
      let valor := parse_currency (monetary.getD 0 "")
      let cand := parse_currency (monetary.getD 1 "")
      let icms := if cand ≤ valor then cand else 0
      (valor, if icms = 0 then cand else 0, icms)
    else if n = 1 then (parse_currency (monetary.getD 0 ""), 0, 0)
    else (0, 0, 0)
  let qtd : ℚ :=
    match qtys with
    | [] => 0
    | q :: qs => maxAbsQ q qs
  { qtd := qtd, valor := vci.1, pis := 0, cofins := vci.2.1, icms := vci.2.2 }

/-- One of the five accumulators of classify_and_sum_lines. -/
structure Bucket where
  qtd : ℚ
  valor : ℚ
  pis : ℚ
  cofins : ℚ
  icms : ℚ
deriving DecidableEq

/-- The record of sums returned by classify_and_sum_lines. -/
structure Sums where
  consumo : Bucket
  injetada : Bucket
  bande_consumida : Bucket
  bande_comp : Bucket
  outros : ℚ
deriving DecidableEq

/-- The all-zero bucket. -/
def Bucket.zero : Bucket := ⟨0, 0, 0, 0, 0⟩

/-- The initial accumulator record (src/main.py lines 83-87). -/
def Sums.init : Sums := ⟨Bucket.zero, Bucket.zero, Bucket.zero, Bucket.zero, 0⟩

/-- Signed accumulation of the per-line fields into a bucket. -/
def addSigned (b : Bucket) (f : LineF) : Bucket :=
  ⟨b.qtd + f.qtd, b.valor + f.valor, b.pis + f.pis, b.cofins + f.cofins, b.icms + f.icms⟩

/-- Accumulation with absolute values of quantity and value (the injected
branches of the source take abs of those two fields only). -/
def addAbs (b : Bucket) (f : LineF) : Bucket :=
  ⟨b.qtd + |f.qtd|, b.valor + |f.valor|, b.pis + f.pis, b.cofins + f.cofins, b.icms + f.icms⟩

/-- Bucket test: consumed energy (src/main.py line 136). -/
def isConsumoL (up : List Char) : Bool := strContains up "ENERGIA ELET".data

/-- Bucket test: flag-consumed energy (src/main.py line 150). -/
def isBandeConsL (up : List Char) : Bool :=
  strContains up "ENERGIA CONS. B.".data || "ENERGIA CONS. B".data.isPrefixOf up

/-- Bucket test: flag-compensated energy (src/main.py line 157). -/
def isBandeCompL (up : List Char) : Bool :=
  strContains up "ENERGIA INJ. BAND".data || strContains up "ENERGIA INJ. BAND.".data

/-- One loop iteration of classify_and_sum_lines (src/main.py lines 89-166):
skip headers, extract the per-line fields, then accumulate into the first
matching bucket, with everything else contributing only its value to
outros. -/
def stepLine (acc : Sums) (line : String) : Sums :=
  if isHeaderSkip line then acc
  else
    let up := pyUp line.data
    let f := lineFields line
    if isConsumoL up then { acc with consumo := addSigned acc.consumo f }
    else if injSearch up then { acc with injetada := addAbs acc.injetada f }
    else if isBandeConsL up then { acc with bande_consumida := addSigned acc.bande_consumida f }
    else if isBandeCompL up then { acc with bande_comp := addAbs acc.bande_comp f }
    else { acc with outros := acc.outros + f.valor }

/-- The final rounding pass of classify_and_sum_lines (src/main.py lines
168-172): every float field of the four buckets is rounded to 2 decimals. -/
def roundBucket (b : Bucket) : Bucket :=
  ⟨roundTo 2 b.qtd, roundTo 2 b.valor, roundTo 2 b.pis, roundTo 2 b.cofins, roundTo 2 b.icms⟩

/-- classify_and_sum_lines (src/main.py lines 72-180). -/
def classify_and_sum_lines (lines : List String) : Sums :=
  let s := lines.foldl stepLine Sums.init
  ⟨roundBucket s.consumo, roundBucket s.injetada, roundBucket s.bande_consumida,
   roundBucket s.bande_comp, roundTo 2 s.outros⟩

/-- The record returned by extract_tax_block_values. -/
structure TaxOut where
  icms : ℚ
  cofins : ℚ
  pis : ℚ
deriving DecidableEq

/-- Occurrence of a pattern within the next n start offsets. -/
def hasNear (p : List Char) : ℕ → List Char → Bool
  | 0, cs => p.isPrefixOf cs
  | n + 1, cs =>
      p.isPrefixOf cs ||
      (match cs with
       | [] => false
       | _ :: r => hasNear p n r)

/-- Whether the pattern ICMS[\s\S]{0,200}PIS matches at this position: ICMS
here and PIS starting at most 200 characters after it ends. -/
def icmsPisHere (cs : List Char) : Bool :=
  "ICMS".data.isPrefixOf cs && hasNear "PIS".data 200 (cs.drop 4)

/-- m.start() of re.search(ICMS[\s\S]{0,200}PIS): the first position at which
the pattern matches (only the start index is used by the source). -/
def windowScan : ℕ → List Char → Option ℕ
  | _, [] => none
  | i, c :: r => if icmsPisHere (c :: r) then some i else windowScan (i + 1) r

/-- Case-insensitive literal prefix test (the label is given uppercased). -/
def ciStarts : List Char → List Char → Bool
  | [], _ => true
  | _ :: _, [] => false
  | p :: ps, c :: cs => p == upperChar c && ciStarts ps cs

/-- Gap characters of the probe patterns LABEL[^\d\-]*(monetary): anything
except a digit or a hyphen. -/
def notDigitDash (c : Char) : Bool := !(isDig c || c == '-')

/-- One probe LABEL[^\d\-]*(-?\d{1,3}(?:\.\d{3})*(?:,\d{2})), searched case
insensitively over the whole text.  Determinization: the greedy gap stops at
the first digit or hyphen, where the monetary group must start; a shorter gap
would leave the group at a character that can start no monetary token, so on
failure the engine moves to the next label occurrence. -/
def probeAux (label : List Char) : ℕ → List Char → Option (List Char)
  | 0, _ => none
  | _ + 1, [] => none
  | n + 1, c :: r =>
      if ciStarts label (c :: r) then
        match matchM (((c :: r).drop label.length).dropWhile notDigitDash) with
        | some (m, _) => some m
        | none => probeAux label n r
      else probeAux label n r

/-- The monetary token following a tax label, as used by the fallback of
extract_tax_block_values (src/main.py lines 200-210). -/
def probeAfterLabel (label : String) (text : String) : Option String :=
  (probeAux label.data (text.data.length + 1) text.data).map String.mk

/-- The fallback branch of extract_tax_block_values: three independent label
probes, each defaulting to zero, rounded to 2 decimals at return. -/
def taxFallback (text : String) : TaxOut :=
  let icms : ℚ :=
    match probeAfterLabel "ICMS" text with
    | some m => parse_currency m
    | none => 0
  let cofins : ℚ :=
    match probeAfterLabel "COFINS" text with
    | some m => parse_currency m
    | none => 0
  let pis : ℚ :=
    match probeAfterLabel "PIS" text with
    | some m => parse_currency m
    | none => 0
  ⟨roundTo 2 icms, roundTo 2 cofins, roundTo 2 pis⟩

/-- extract_tax_block_values (src/main.py lines 182-211): find the window
ICMS...PIS in the uppercased text, scan 400 characters from its start for
monetary tokens and keep the last three as ICMS, COFINS, PIS; on failure
fall back to the three label probes. -/
def extract_tax_block_values (text : String) : TaxOut :=
  let text_up := pyUp text.data
  match windowScan 0 text_up with
  | some i =>
      let snippet := (text_up.drop i).take 400
      let vals := (scanAll matchM (snippet.length + 1) snippet).map String.mk
      if 3 ≤ vals.length then
        ⟨roundTo 2 (parse_currency (vals.getD (vals.length - 3) "")),
         roundTo 2 (parse_currency (vals.getD (vals.length - 2) "")),
         roundTo 2 (parse_currency (vals.getD (vals.length - 1) ""))⟩
      else taxFallback text
  | none => taxFallback text

/-- Tail of the TOTAL pattern after the \D gap: R? \$? \s* then the monetary
group.  Determinization: a monetary token can start only with a digit or a
hyphen, so if R or $ is present but the continuation fails, the variant that
skips them fails as well; likewise fewer whitespace characters would leave
the group at a whitespace character. -/
def totalTail (cs : List Char) : Option (List Char) :=
  let cs1 :=
    match cs with
    | c :: r => if upperChar c = 'R' then r else c :: r
    | [] => []
  let cs2 :=
    match cs1 with
    | c :: r => if c = '$' then r else c :: r
    | [] => []
  (matchM (cs2.dropWhile isWsB)).map Prod.fst

/-- The gap \D{0,30} of the TOTAL pattern, tried greedily from the longest
non-digit run (capped at 30) down to the empty gap. -/
def tryGaps (cs : List Char) : ℕ → Option (List Char)
  | 0 => totalTail cs
  | g + 1 =>
      match totalTail (cs.drop (g + 1)) with
      | some m => some m
      | none => tryGaps cs g

/-- Search of \D{0,30}R?\$?\s*(monetary) at one position. -/
def gapSearch (cs : List Char) : Option (List Char) :=
  tryGaps cs (min 30 (cs.takeWhile (fun c => !isDig c)).length)

/-- The optional (?:\s*A\s*PAGAR) group after TOTAL, consumed greedily;
whitespace runs before A and PAGAR are maximal (a shorter run would leave
the next literal at a whitespace character). -/
def apagarTry (cs : List Char) : Option (List Char) :=
  match cs.dropWhile isWsB with
  | c :: r =>
      if upperChar c = 'A' then
        let cs2 := r.dropWhile isWsB
        if ciStarts "PAGAR".data cs2 then some (cs2.drop 5) else none
      else none
  | [] => none

/-- re.search of TOTAL(?:\s*A\s*PAGAR)?\D{0,30}R?\$?\s*(monetary), case
insensitive (src/main.py line 243): at each TOTAL occurrence the optional
A PAGAR group is tried first and retried without on failure, then the gap
search; on failure the scan moves to the next position. -/
def totalScanAux : ℕ → List Char → Option (List Char)
  | 0, _ => none
  | _ + 1, [] => none
  | n + 1, c :: r =>
      if ciStarts "TOTAL".data (c :: r) then
        match
          (match apagarTry ((c :: r).drop 5) with
           | some cs2 =>
               (match gapSearch cs2 with
                | some m => some m
                | none => gapSearch ((c :: r).drop 5))
           | none => gapSearch ((c :: r).drop 5)) with
        | some m => some m
        | none => totalScanAux n r
      else totalScanAux n r

/-- The total-to-pay probe of upload_pdf (src/main.py lines 243-244):
the matched monetary group fed through parse_currency, or none. -/
def totalProbe (text : String) : Option ℚ :=
  (totalScanAux (text.data.length + 1) text.data).map (fun m => parse_currency (String.mk m))

/-- Three decimal digits. -/
def digits3 (a b c : Char) : Bool := isDig a && isDig b && isDig c

/-- Tail /[12]\d{3}\b of the reference-month pattern. -/
def refTail : List Char → Option (List Char)
  | '/' :: y1 :: y2 :: y3 :: y4 :: r =>
      if (y1 == '1' || y1 == '2') && digits3 y2 y3 y4 &&
         (match r with
          | [] => true
          | c :: _ => !wordChar c) then
        some ['/', y1, y2, y3, y4]
      else none
  | _ => none

/-- The month alternation (?:0?[1-9]|1[0-2]) followed by the year tail, with
the alternatives tried in source order: first 0?[1-9] (the optional zero
taken greedily), then 1[0-2]. -/
def matchRef : List Char → Option (List Char)
  | [] => none
  | '0' :: d :: r =>
      if '1' ≤ d && d ≤ '9' then (refTail r).map (fun m => '0' :: d :: m) else none
  | d :: r =>
      if '1' ≤ d && d ≤ '9' then
        match refTail r with
        | some m => some (d :: m)
        | none =>
            if d == '1' then
              match r with
              | d2 :: r2 =>
                  if '0' ≤ d2 && d2 ≤ '2' then (refTail r2).map (fun m => '1' :: d2 :: m)
                  else none
              | [] => none
            else none
      else none

/-- re.search of \b(?:0?[1-9]|1[0-2])/[12]\d{3}\b (src/main.py line 247): the
match starts with a digit, so the leading word boundary holds exactly when
the previous character is not a word character; the boolean argument tracks
whether the previous character was a word character. -/
def refScanAux : ℕ → Bool → List Char → Option (List Char)
  | 0, _, _ => none
  | _ + 1, _, [] => none
  | n + 1, prevWord, c :: r =>
      if prevWord then refScanAux n (wordChar c) r
      else
        match matchRef (c :: r) with
        | some m => some m
        | none => refScanAux n (wordChar c) r

/-- The reference-month probe of upload_pdf (src/main.py lines 247-248). -/
def refProbe (text : String) : Option String :=
  (refScanAux (text.data.length + 1) false text.data).map String.mk

/-- The date group \d{2}/\d{2}/\d{4}. -/
def matchDate : List Char → Option (List Char)
  | d1 :: d2 :: '/' :: m1 :: m2 :: '/' :: a1 :: a2 :: a3 :: a4 :: _ =>
      if isDig d1 && isDig d2 && isDig m1 && isDig m2 &&
         isDig a1 && isDig a2 && isDig a3 && isDig a4 then
        some [d1, d2, '/', m1, m2, '/', a1, a2, a3, a4]
      else none
  | _ => none

/-- After the literal VENCIMENT: the class [O|A]? (one optional character O,
A or the bar, case insensitive), then \s*, an optional colon or hyphen, \s*,
then the date group.  Each optional piece is taken when present: if taking it
lets the rest fail, the variant without it fails too, because a date cannot
start at the skipped character. -/
def vencAfter (cs : List Char) : Option (List Char) :=
  let cs1 :=
    match cs with
    | c :: r => if upperChar c == 'O' || upperChar c == 'A' || c == '|' then r else c :: r
    | [] => []
  let cs2 := cs1.dropWhile isWsB
  let cs3 :=
    match cs2 with
    | c :: r => if c == ':' || c == '-' then r else c :: r
    | [] => []
  matchDate (cs3.dropWhile isWsB)

/-- re.search of VENCIMENT[O|A]?\s*[:\-]?\s*(\d{2}/\d{2}/\d{4}), case
insensitive (src/main.py line 249). -/
def vencScanAux : ℕ → List Char → Option (List Char)
  | 0, _ => none
  | _ + 1, [] => none
  | n + 1, c :: r =>
      if ciStarts "VENCIMENT".data (c :: r) then
        match vencAfter ((c :: r).drop 9) with
        | some m => some m
        | none => vencScanAux n r
      else vencScanAux n r

/-- The due-date probe of upload_pdf (src/main.py lines 249-250). -/
def vencProbe (text : String) : Option String :=
  (vencScanAux (text.data.length + 1) text.data).map String.mk

/-- Whether the next two characters are whitespace (the required \s{2,}). -/
def twoWs : List Char → Bool
  | a :: b :: _ => isWsB a && isWsB b
  | _ => false

/-- The lazy group (.+?) before \s{2,}: grow the group one character at a
time (never across a newline, which the dot does not match) until two
whitespace characters follow. -/
def lazyFindAux (acc : List Char) : List Char → Option (List Char)
  | [] => none
  | c :: r =>
      if c == '\n' then none
      else if twoWs r then some ((c :: acc).reverse)
      else lazyFindAux (c :: acc) r

/-- The greedy \s* before the lazy group, tried from the maximal whitespace
run down to the empty run. -/
def ucTryW (cs : List Char) : ℕ → Option (List Char)
  | 0 => lazyFindAux [] cs
  | w + 1 =>
      match lazyFindAux [] (cs.drop (w + 1)) with
      | some g => some g
      | none => ucTryW cs w

/-- After the literal Nome: of the customer probe. -/
def ucAfter (cs : List Char) : Option (List Char) :=
  ucTryW cs (cs.takeWhile isWsB).length

/-- re.search of Nome:\s*(.+?)\s{2,}, case insensitive (src/main.py line
251). -/
def ucScanAux : ℕ → List Char → Option (List Char)
  | 0, _ => none
  | _ + 1, [] => none
  | n + 1, c :: r =>
      if ciStarts "NOME:".data (c :: r) then
        match ucAfter ((c :: r).drop 5) with
        | some g => some g
        | none => ucScanAux n r
      else ucScanAux n r

/-- The customer probe of upload_pdf (src/main.py lines 251-252), with the
final strip of the matched group. -/
def ucProbe (text : String) : Option String :=
  (ucScanAux (text.data.length + 1) text.data).map (fun g => String.mk (stripWs g))

/-- One bucket of the response record of upload_pdf. -/
structure BucketOut where
  qtd_kwh : ℚ
  valor : ℚ
  pis : ℚ
  cofins : ℚ
  icms : ℚ
deriving DecidableEq

/-- The consumed-energy bucket of the response record, with the unit
tariff. -/
structure ConsumoOut where
  qtd_kwh : ℚ
  valor : ℚ
  pis : ℚ
  cofins : ℚ
  icms : ℚ
  tarifa_unit : Option ℚ
deriving DecidableEq

/-- The dados_fatura block of the response record. -/
structure DadosOut where
  ref : Option String
  vencimento : Option String
  total_a_pagar : Option ℚ
  unidade_consumidora : Option String
deriving DecidableEq

/-- The response record of upload_pdf (src/main.py lines 255-296). -/
structure ResultOut where
  energia_injetada : BucketOut
  consumo_kwh : ConsumoOut
  bandeira_consumida : BucketOut
  bandeira_compensada : BucketOut
  outros_valores : ℚ
  dados_fatura : DadosOut
deriving DecidableEq

/-- The core pipeline of upload_pdf on the already flattened text
(src/main.py lines 234-296): block extraction, classification, tax-block
extraction, the four metadata probes, and the assembly of the response
record.  The transport-layer concerns of the endpoint (file validation, PDF
to text conversion, the empty-text guard) are outside the core. -/
def resultOf (full_text : String) : ResultOut :=
  let sums := classify_and_sum_lines (extract_invoice_items_block full_text)
  let taxes := extract_tax_block_values full_text
  let total_pagar := totalProbe full_text
  { energia_injetada :=
      ⟨roundTo 3 sums.injetada.qtd, roundTo 2 sums.injetada.valor,
       taxes.pis, taxes.cofins, taxes.icms⟩
    consumo_kwh :=
      ⟨roundTo 3 sums.consumo.qtd, roundTo 2 sums.consumo.valor,
       taxes.pis, taxes.cofins, taxes.icms,
       if sums.consumo.qtd = 0 then none
       else some (roundTo 6 (sums.consumo.valor / sums.consumo.qtd))⟩
    bandeira_consumida :=
      ⟨roundTo 3 sums.bande_consumida.qtd, roundTo 2 sums.bande_consumida.valor,
       taxes.pis, taxes.cofins, taxes.icms⟩
    bandeira_compensada :=
      ⟨roundTo 3 sums.bande_comp.qtd, roundTo 2 sums.bande_comp.valor,
       taxes.pis, taxes.cofins, taxes.icms⟩
    outros_valores := roundTo 2 sums.outros
    dados_fatura :=
      ⟨refProbe full_text, vencProbe full_text, total_pagar.map (roundTo 2),
       ucProbe full_text⟩ }

/-- Spec side: the nonempty whitespace-trimmed lines of the whole document,
the output that claim C7 predicts for the final fallback of the locator. -/
def trimmedNonEmptyLines (text : String) : List String :=
  ((((linesOf text.data).map stripWs).filter (fun l => l ≠ []))).map String.mk

/-- Spec side: the cross-check figure claimed in C3, written from the words
of the specification (total of every monetary token found anywhere in the
whole document minus the sum of the four named bucket values).  No
corresponding computation exists in src/main.py. -/
def specCrossCheckFigure (text : String) : ℚ :=
  (find_monetary_in_line text).sum -
    ((resultOf text).consumo_kwh.valor + (resultOf text).energia_injetada.valor +
     (resultOf text).bandeira_consumida.valor + (resultOf text).bandeira_compensada.valor)

/-- Per-line quantity contribution to the consumed-energy bucket. -/
def consumoQtdOf (l : String) : ℚ :=
  if isHeaderSkip l then 0
  else if isConsumoL (pyUp l.data) then (lineFields l).qtd
  else 0

/-- Per-line value contribution to the consumed-energy bucket. -/
def consumoValorOf (l : String) : ℚ :=
  if isHeaderSkip l then 0
  else if isConsumoL (pyUp l.data) then (lineFields l).valor
  else 0

/-- Per-line quantity contribution to the injected-energy bucket (absolute
value, per the source). -/
def injetadaQtdOf (l : String) : ℚ :=
  if isHeaderSkip l then 0
  else if isConsumoL (pyUp l.data) then 0
  else if injSearch (pyUp l.data) then |(lineFields l).qtd|
  else 0

/-- Per-line value contribution to the injected-energy bucket. -/
def injetadaValorOf (l : String) : ℚ :=
  if isHeaderSkip l then 0
  else if isConsumoL (pyUp l.data) then 0
  else if injSearch (pyUp l.data) then |(lineFields l).valor|
  else 0

/-- Per-line quantity contribution to the flag-consumed bucket. -/
def bandeConsQtdOf (l : String) : ℚ :=
  if isHeaderSkip l then 0
  else if isConsumoL (pyUp l.data) then 0
  else if injSearch (pyUp l.data) then 0
  else if isBandeConsL (pyUp l.data) then (lineFields l).qtd
  else 0

/-- Per-line value contribution to the flag-consumed bucket. -/
def bandeConsValorOf (l : String) : ℚ :=
  if isHeaderSkip l then 0
  else if isConsumoL (pyUp l.data) then 0
  else if injSearch (pyUp l.data) then 0
  else if isBandeConsL (pyUp l.data) then (lineFields l).valor
  else 0

/-- Per-line quantity contribution to the flag-compensated bucket. -/
def bandeCompQtdOf (l : String) : ℚ :=
  if isHeaderSkip l then 0
  else if isConsumoL (pyUp l.data) then 0
  else if injSearch (pyUp l.data) then 0
  else if isBandeConsL (pyUp l.data) then 0
  else if isBandeCompL (pyUp l.data) then |(lineFields l).qtd|
  else 0

/-- Per-line value contribution to the flag-compensated bucket. -/
def bandeCompValorOf (l : String) : ℚ :=
  if isHeaderSkip l then 0
  else if isConsumoL (pyUp l.data) then 0
  else if injSearch (pyUp l.data) then 0
  else if isBandeConsL (pyUp l.data) then 0
  else if isBandeCompL (pyUp l.data) then |(lineFields l).valor|
  else 0

/-- Per-line value contribution to the other bucket: the value of every
processed line assigned to none of the four named buckets. -/
def outroValorOf (l : String) : ℚ :=
  if isHeaderSkip l then 0
  else if isConsumoL (pyUp l.data) then 0
  else if injSearch (pyUp l.data) then 0
  else if isBandeConsL (pyUp l.data) then 0
  else if isBandeCompL (pyUp l.data) then 0
  else (lineFields l).valor

/-- A rational is a whole number of hundredths.  Every quantity and every
monetary value the classifier extracts has this granularity, which is what
makes the intermediate rounding to 2 decimals of the source invisible. -/
def Cent (q : ℚ) : Prop := ∃ z : ℤ, q = z / 100

theorem mkRat_half : (mkRat 1 2 : ℚ) = 1 / 2 := by
  rw [Rat.mkRat_eq_div]; norm_num

/-- Half-even rounding fixes integers. -/
theorem rnd_intCast (z : ℤ) : rnd (z : ℚ) = z := by
  unfold rnd
  rw [Int.floor_intCast]
  simp [mkRat_half]

/-- roundTo written with rational division. -/
theorem roundTo_eq_div (n : ℕ) (q : ℚ) :
    roundTo n q = ((rnd (q * ((10 ^ n : ℕ) : ℚ))) : ℚ) / ((10 ^ n : ℕ) : ℚ) := by
  unfold roundTo
  rw [Rat.mkRat_eq_div, Rat.ofInt_eq_cast]
  norm_num

theorem cent_zero : Cent 0 := ⟨0, by norm_num⟩

theorem cent_add {a b : ℚ} (ha : Cent a) (hb : Cent b) : Cent (a + b) := by
  obtain ⟨x, hx⟩ := ha
  obtain ⟨y, hy⟩ := hb
  exact ⟨x + y, by rw [hx, hy]; push_cast; ring⟩

theorem cent_abs {a : ℚ} (ha : Cent a) : Cent |a| := by
  obtain ⟨x, hx⟩ := ha
  refine ⟨|x|, ?_⟩
  rw [hx, abs_div, Int.cast_abs]
  norm_num

theorem cent_ite (c : Prop) [Decidable c] {a b : ℚ} (ha : Cent a) (hb : Cent b) :
    Cent (if c then a else b) := by
  by_cases h : c
  · simpa [h] using ha
  · simpa [h] using hb

theorem cent_sum (l : List ℚ) (h : ∀ q ∈ l, Cent q) : Cent l.sum := by
  induction l with
  | nil => simpa using cent_zero
  | cons a t ih =>
      rw [List.sum_cons]
      exact cent_add (h a (by simp)) (ih fun q hq => h q (by simp [hq]))

/-- Rounding to 2 decimals fixes whole numbers of hundredths. -/
theorem roundTo2_cent {q : ℚ} (h : Cent q) : roundTo 2 q = q := by
  obtain ⟨z, hz⟩ := h
  have h100 : ((10 ^ 2 : ℕ) : ℚ) = 100 := by norm_num
  rw [roundTo_eq_div, h100, hz]
  have : (z : ℚ) / 100 * 100 = (z : ℚ) := by field_simp
  rw [this, rnd_intCast]

/-- Rounding to 3 decimals also fixes whole numbers of hundredths. -/
theorem roundTo3_cent {q : ℚ} (h : Cent q) : roundTo 3 q = q := by
  obtain ⟨z, hz⟩ := h
  have h1000 : ((10 ^ 3 : ℕ) : ℚ) = 1000 := by norm_num
  rw [roundTo_eq_div, h1000, hz]
  have h1 : (z : ℚ) / 100 * 1000 = ((10 * z : ℤ) : ℚ) := by push_cast; field_simp; ring
  rw [h1, rnd_intCast]
  push_cast
  field_simp
  ring

/-- Rounding is idempotent. -/
theorem roundTo_idem (n : ℕ) (q : ℚ) : roundTo n (roundTo n q) = roundTo n q := by
  have hD : ((10 ^ n : ℕ) : ℚ) ≠ 0 := by positivity
  rw [roundTo_eq_div, roundTo_eq_div (q := q)]
  have h1 : ((rnd (q * ((10 ^ n : ℕ) : ℚ))) : ℚ) / ((10 ^ n : ℕ) : ℚ) * ((10 ^ n : ℕ) : ℚ) =
      ((rnd (q * ((10 ^ n : ℕ) : ℚ))) : ℚ) := by field_simp
  rw [h1, rnd_intCast]

theorem stepLine_consumo_qtd (acc : Sums) (l : String) :
    (stepLine acc l).consumo.qtd = acc.consumo.qtd + consumoQtdOf l := by
  simp only [stepLine, consumoQtdOf]
  split_ifs <;> simp [addSigned, addAbs]

theorem stepLine_consumo_valor (acc : Sums) (l : String) :
    (stepLine acc l).consumo.valor = acc.consumo.valor + consumoValorOf l := by
  simp only [stepLine, consumoValorOf]
  split_ifs <;> simp [addSigned, addAbs]

theorem stepLine_injetada_qtd (acc : Sums) (l : String) :
    (stepLine acc l).injetada.qtd = acc.injetada.qtd + injetadaQtdOf l := by
  simp only [stepLine, injetadaQtdOf]
  split_ifs <;> simp [addSigned, addAbs]

theorem stepLine_injetada_valor (acc : Sums) (l : String) :
    (stepLine acc l).injetada.valor = acc.injetada.valor + injetadaValorOf l := by
  simp only [stepLine, injetadaValorOf]
  split_ifs <;> simp [addSigned, addAbs]

theorem stepLine_bandeCons_qtd (acc : Sums) (l : String) :
    (stepLine acc l).bande_consumida.qtd = acc.bande_consumida.qtd + bandeConsQtdOf l := by
  simp only [stepLine, bandeConsQtdOf]
  split_ifs <;> simp [addSigned, addAbs]

theorem stepLine_bandeCons_valor (acc : Sums) (l : String) :
    (stepLine acc l).bande_consumida.valor = acc.bande_consumida.valor + bandeConsValorOf l := by
  simp only [stepLine, bandeConsValorOf]
  split_ifs <;> simp [addSigned, addAbs]

theorem stepLine_bandeComp_qtd (acc : Sums) (l : String) :
    (stepLine acc l).bande_comp.qtd = acc.bande_comp.qtd + bandeCompQtdOf l := by
  simp only [stepLine, bandeCompQtdOf]
  split_ifs <;> simp [addSigned, addAbs]

theorem stepLine_bandeComp_valor (acc : Sums) (l : String) :
    (stepLine acc l).bande_comp.valor = acc.bande_comp.valor + bandeCompValorOf l := by
  simp only [stepLine, bandeCompValorOf]
  split_ifs <;> simp [addSigned, addAbs]

theorem stepLine_outros (acc : Sums) (l : String) :
    (stepLine acc l).outros = acc.outros + outroValorOf l := by
  simp only [stepLine, outroValorOf]
  split_ifs <;> simp [addSigned, addAbs]

/-- A field of the classification fold accumulates the per-line
contributions, for any field projection that distributes over one step. -/
theorem foldl_field (F : Sums → ℚ) (g : String → ℚ)
    (h : ∀ acc l, F (stepLine acc l) = F acc + g l) :
    ∀ (ls : List String) (acc : Sums),
      F (ls.foldl stepLine acc) = F acc + (ls.map g).sum := by
  intro ls
  induction ls with
  | nil => intro acc; simp
  | cons l t ih =>
      intro acc
      rw [List.foldl_cons, ih, h, List.map_cons, List.sum_cons, add_assoc]

theorem isDig_ne_dot {c : Char} (h : isDig c = true) : c ≠ '.' := by
  rintro rfl; exact absurd h (by decide)

theorem isDig_ne_comma {c : Char} (h : isDig c = true) : c ≠ ',' := by
  rintro rfl; exact absurd h (by decide)

theorem isDig_ne_minus {c : Char} (h : isDig c = true) : c ≠ '-' := by
  rintro rfl; exact absurd h (by decide)

theorem isDig_ne_plus {c : Char} (h : isDig c = true) : c ≠ '+' := by
  rintro rfl; exact absurd h (by decide)

theorem isDig_not_ws {c : Char} (h : isDig c = true) : isWsB c = false := by
  rcases hw : isWsB c with _ | _
  · rfl
  · exfalso
    simp only [isWsB, Bool.or_eq_true, beq_iff_eq] at hw
    rcases hw with ((((rfl | rfl) | rfl) | rfl) | rfl) | rfl <;> exact absurd h (by decide)

theorem dropWhile_eq_self_of {p : Char → Bool} {l : List Char} (h : ∀ c ∈ l, p c = false) :
    l.dropWhile p = l := by
  cases l with
  | nil => rfl
  | cons c t => rw [List.dropWhile_cons, h c (by simp)]; simp

theorem stripWs_eq_self {l : List Char} (h : ∀ c ∈ l, isWsB c = false) : stripWs l = l := by
  unfold stripWs
  rw [dropWhile_eq_self_of h,
      dropWhile_eq_self_of (fun c hc => h c (List.mem_reverse.mp hc)),
      List.reverse_reverse]

theorem takeDigits_all (cs : List Char) : ∀ c ∈ (takeDigits cs).1, isDig c = true := by
  induction cs with
  | nil => simp [takeDigits]
  | cons c t ih =>
      rcases h2 : takeDigits t with ⟨ds, rest⟩
      by_cases h : isDig c
      · rw [h2] at ih
        simp only [takeDigits, h, h2, if_true]
        intro x hx
        rcases List.mem_cons.mp hx with rfl | hx2
        · exact h
        · exact ih x hx2
      · simp [takeDigits, h]

theorem takeDigits_append (ds r : List Char) (hds : ∀ c ∈ ds, isDig c = true)
    (hr : ∀ c t, r = c :: t → isDig c = false) :
    takeDigits (ds ++ r) = (ds, r) := by
  induction ds with
  | nil =>
      cases r with
      | nil => rfl
      | cons c t => simp [takeDigits, hr c t rfl]
  | cons d ds2 ih =>
      have hd := hds d (by simp)
      have ih2 := ih (fun c hc => hds c (by simp [hc]))
      simp [takeDigits, hd, ih2]

theorem takeGroups_chars (cs : List Char) :
    ∀ x ∈ (takeGroups cs).1, x = '.' ∨ isDig x = true := by
  induction cs using takeGroups.induct with
  | case1 a b c r hdig g rest htg ih =>
      rw [htg] at ih
      simp only [takeGroups, hdig, htg, if_true]
      intro x hx
      simp only [List.mem_cons] at hx
      rcases hx with rfl | rfl | rfl | rfl | hx
      · exact Or.inl rfl
      · simp only [Bool.and_eq_true] at hdig; exact Or.inr hdig.1.1
      · simp only [Bool.and_eq_true] at hdig; exact Or.inr hdig.1.2
      · simp only [Bool.and_eq_true] at hdig; exact Or.inr hdig.2
      · exact ih x hx
  | case2 a b c r hdig =>
      simp [takeGroups, hdig]
  | case3 cs hcs =>
      rcases cs with _ | ⟨c1, _ | ⟨c2, _ | ⟨c3, _ | ⟨c4, r⟩⟩⟩⟩ <;> simp [takeGroups]

theorem qtyClean_append (a b : List Char) : qtyClean (a ++ b) = qtyClean a ++ qtyClean b := by
  simp [qtyClean]

theorem qtyClean_digits {l : List Char} (h : ∀ c ∈ l, isDig c = true) : qtyClean l = l := by
  unfold qtyClean
  have h1 : l.filter (fun c => c ≠ '.') = l :=
    List.filter_eq_self.mpr fun a ha => by simp [isDig_ne_dot (h a ha)]
  rw [h1]
  have h2 : ∀ a ∈ l, (if a = ',' then '.' else a) = a := fun a ha => by
    simp [isDig_ne_comma (h a ha)]
  rw [List.map_congr_left h2, List.map_id']

/-- The cleaned optional comma tail of a quantity match: nothing, or a dot
with one or two digits. -/
def GoodTail (tl : List Char) : Prop :=
  tl = [] ∨ (∃ a, isDig a = true ∧ tl = ['.', a]) ∨
    (∃ a b, isDig a = true ∧ isDig b = true ∧ tl = ['.', a, b])


/-- Cleaning a comma tail of two digits. -/
theorem qtyClean_tail2 {a b : Char} (ha : isDig a = true) (hb : isDig b = true) :
    qtyClean [',', a, b] = ['.', a, b] := by
  simp [qtyClean, isDig_ne_dot ha, isDig_ne_dot hb, isDig_ne_comma ha, isDig_ne_comma hb]

/-- Cleaning a comma tail of one digit. -/
theorem qtyClean_tail1 {a : Char} (ha : isDig a = true) :
    qtyClean [',', a] = ['.', a] := by
  simp [qtyClean, isDig_ne_dot ha, isDig_ne_comma ha]

/-- Shape of a match of the quantity pattern: after the cleaning chain of
parse_qty_kwh_token it is a nonempty digit run followed by a good tail, and
the raw match contains no whitespace. -/
theorem matchQcore_shape (cs m rest : List Char) (h : matchQcore cs = some (m, rest)) :
    ∃ DS tl, (∀ c ∈ DS, isDig c = true) ∧ DS ≠ [] ∧ qtyClean m = DS ++ tl ∧ GoodTail tl ∧
      ∀ c ∈ m, isWsB c = false := by
  rcases htd : takeDigits cs with ⟨ds, r⟩
  have hdsdig : ∀ c ∈ ds, isDig c = true := by
    have := takeDigits_all cs; rw [htd] at this; exact this
  rcases ds with _ | ⟨d0, ds0⟩
  · rw [matchQcore, htd] at h; simp at h
  rw [matchQcore, htd] at h
  by_cases hlen : 3 < (d0 :: ds0).length
  · simp only [hlen, if_true, reduceCtorEq, if_false, Option.some.injEq, Prod.mk.injEq] at h
    obtain ⟨hm, -⟩ := h
    have hmd : ∀ c ∈ m, isDig c = true := by
      intro c hc
      exact hdsdig c (List.take_subset 3 _ (hm ▸ hc))
    refine ⟨m, [], hmd, ?_, by rw [List.append_nil]; exact qtyClean_digits hmd, Or.inl rfl,
      fun c hc => isDig_not_ws (hmd c hc)⟩
    subst hm
    intro he
    rw [List.take_eq_nil_iff] at he
    simp at he
  · rcases htg : takeGroups r with ⟨g, r2⟩
    have hgch : ∀ x ∈ g, x = '.' ∨ isDig x = true := by
      have := takeGroups_chars r; rw [htg] at this; exact this
    have hgws : ∀ x ∈ g, isWsB x = false := by
      intro x hx
      rcases hgch x hx with rfl | hd
      · decide
      · exact isDig_not_ws hd
    have hclg : qtyClean g = g.filter (fun c => c ≠ '.') := by
      unfold qtyClean
      have : ∀ a ∈ g.filter (fun c => c ≠ '.'), (if a = ',' then '.' else a) = a := by
        intro a ha
        rcases List.mem_filter.mp ha with ⟨hag, hne⟩
        rcases hgch a hag with rfl | hd
        · simp at hne
        · simp [isDig_ne_comma hd]
      rw [List.map_congr_left this, List.map_id']
    have hgfd : ∀ x ∈ g.filter (fun c => c ≠ '.'), isDig x = true := by
      intro x hx
      rcases List.mem_filter.mp hx with ⟨hag, hne⟩
      rcases hgch x hag with rfl | hd
      · simp at hne
      · exact hd
    have base : ∀ tail, m = (d0 :: ds0) ++ g ++ tail →
        (∀ c ∈ tail, isWsB c = false) → GoodTail (qtyClean tail) →
        ∃ DS tl, (∀ c ∈ DS, isDig c = true) ∧ DS ≠ [] ∧ qtyClean m = DS ++ tl ∧ GoodTail tl ∧
          ∀ c ∈ m, isWsB c = false := by
      intro tail hm hws hgt
      refine ⟨(d0 :: ds0) ++ g.filter (fun c => c ≠ '.'), qtyClean tail, ?_, by simp, ?_, hgt, ?_⟩
      · intro c hc
        rcases List.mem_append.mp hc with hc1 | hc2
        · exact hdsdig c hc1
        · exact hgfd c hc2
      · rw [hm, qtyClean_append, qtyClean_append, qtyClean_digits hdsdig, hclg, List.append_assoc]
      · intro c hc
        rw [hm] at hc
        rcases List.mem_append.mp hc with hc1 | hc2
        · rcases List.mem_append.mp hc1 with hc3 | hc4
          · exact isDig_not_ws (hdsdig c hc3)
          · exact hgws c hc4
        · exact hws c hc2
    simp only [hlen, if_false, reduceCtorEq, htg] at h
    split at h
    · -- r2 = ',' :: a :: b :: r3
      rename_i a b r3
      split_ifs at h with h1 h2
      · rw [Bool.and_eq_true] at h1
        obtain ⟨ha, hb⟩ := h1
        simp only [Option.some.injEq, Prod.mk.injEq] at h
        refine base [',', a, b] h.1.symm ?_ ?_
        · intro c hc
          simp only [List.mem_cons, List.not_mem_nil, or_false] at hc
          rcases hc with rfl | rfl | rfl
          · decide
          · exact isDig_not_ws ha
          · exact isDig_not_ws hb
        · rw [qtyClean_tail2 ha hb]
          exact Or.inr (Or.inr ⟨a, b, ha, hb, rfl⟩)
      · simp only [Option.some.injEq, Prod.mk.injEq] at h
        refine base [',', a] h.1.symm ?_ ?_
        · intro c hc
          simp only [List.mem_cons, List.not_mem_nil, or_false] at hc
          rcases hc with rfl | rfl
          · decide
          · exact isDig_not_ws h2
        · rw [qtyClean_tail1 h2]
          exact Or.inr (Or.inl ⟨a, h2, rfl⟩)
      · simp only [Option.some.injEq, Prod.mk.injEq] at h
        exact base [] (by rw [List.append_nil]; exact h.1.symm) (by simp) (Or.inl rfl)
    · -- r2 = [',', a]
      rename_i a
      split_ifs at h with h1
      · simp only [Option.some.injEq, Prod.mk.injEq] at h
        refine base [',', a] h.1.symm ?_ ?_
        · intro c hc
          simp only [List.mem_cons, List.not_mem_nil, or_false] at hc
          rcases hc with rfl | rfl
          · decide
          · exact isDig_not_ws h1
        · rw [qtyClean_tail1 h1]
          exact Or.inr (Or.inl ⟨a, h1, rfl⟩)
      · simp only [Option.some.injEq, Prod.mk.injEq] at h
        exact base [] (by rw [List.append_nil]; exact h.1.symm) (by simp) (Or.inl rfl)
    · -- default
      simp only [Option.some.injEq, Prod.mk.injEq] at h
      exact base [] (by rw [List.append_nil]; exact h.1.symm) (by simp) (Or.inl rfl)

theorem cent_neg {a : ℚ} (ha : Cent a) : Cent (-a) := by
  obtain ⟨x, hx⟩ := ha
  exact ⟨-x, by rw [hx]; push_cast; ring⟩

theorem cent_sgn (neg : Bool) {a : ℚ} (ha : Cent a) : Cent (if neg then -a else a) := by
  cases neg
  · simpa using ha
  · simpa using cent_neg ha

theorem cent_natCast (n : ℕ) : Cent (n : ℚ) := ⟨n * 100, by push_cast; ring⟩

theorem cent_frac (I F : ℕ) (k : ℕ) (hk : k ≤ 2) :
    Cent ((I : ℚ) + (F : ℚ) / (10 : ℚ) ^ k) := by
  have h100 : (100 : ℚ) ≠ 0 := by norm_num
  interval_cases k
  · refine ⟨(I + F) * 100, ?_⟩
    rw [eq_div_iff h100]; push_cast; ring
  · refine ⟨I * 100 + F * 10, ?_⟩
    rw [eq_div_iff h100]; push_cast; ring
  · refine ⟨I * 100 + F, ?_⟩
    rw [eq_div_iff h100]; push_cast; ring

/-- The float reader on a digit run with a good tail: it succeeds and the
value is a whole number of hundredths. -/
theorem pyFloatSigned_shape (neg : Bool) (DS tl : List Char)
    (hDS : ∀ c ∈ DS, isDig c = true) (hne : DS ≠ []) (htl : GoodTail tl) :
    ∃ v : ℚ, pyFloatSigned neg (DS ++ tl) = some v ∧ Cent v := by
  have htake : takeDigits (DS ++ tl) = (DS, tl) := by
    refine takeDigits_append DS tl hDS ?_
    intro c t hct
    rcases htl with rfl | ⟨a, ha, rfl⟩ | ⟨a, b, ha, hb, rfl⟩
    · simp at hct
    · cases hct; decide
    · cases hct; decide
  rcases DS with _ | ⟨d, DS2⟩
  · exact absurd rfl hne
  rcases htl with rfl | ⟨a, ha, rfl⟩ | ⟨a, b, ha, hb, rfl⟩
  · refine ⟨if neg then -(digitsVal (d :: DS2) : ℚ) else (digitsVal (d :: DS2) : ℚ), ?_,
      cent_sgn neg (cent_natCast _)⟩
    rw [List.append_nil] at htake
    simp [pyFloatSigned, htake, pyFloatFinish]
  · have hta : takeDigits [a] = ([a], []) := by simp [takeDigits, ha]
    refine ⟨if neg then -((digitsVal (d :: DS2) : ℚ) + (digitsVal [a] : ℚ) / (10 : ℚ) ^ 1)
        else (digitsVal (d :: DS2) : ℚ) + (digitsVal [a] : ℚ) / (10 : ℚ) ^ 1, ?_,
      cent_sgn neg (by simpa using cent_frac (digitsVal (d :: DS2)) (digitsVal [a]) 1 (by norm_num))⟩
    simp only [pyFloatSigned]
    rw [htake]
    simp [hta, pyFloatFinish]
  · have hta : takeDigits [a, b] = ([a, b], []) := by simp [takeDigits, ha, hb]
    refine ⟨if neg then -((digitsVal (d :: DS2) : ℚ) + (digitsVal [a, b] : ℚ) / (10 : ℚ) ^ 2)
        else (digitsVal (d :: DS2) : ℚ) + (digitsVal [a, b] : ℚ) / (10 : ℚ) ^ 2, ?_,
      cent_sgn neg (by simpa using cent_frac (digitsVal (d :: DS2)) (digitsVal [a, b]) 2 (by norm_num))⟩
    simp only [pyFloatSigned]
    rw [htake]
    simp [hta, pyFloatFinish]

/-- The whole float reader on an unsigned digit shape. -/
theorem pyFloatL_digits (DS tl : List Char)
    (hDS : ∀ c ∈ DS, isDig c = true) (hne : DS ≠ []) (htl : GoodTail tl) :
    ∃ v : ℚ, pyFloatL (DS ++ tl) = some v ∧ Cent v := by
  have hws : ∀ c ∈ DS ++ tl, isWsB c = false := by
    intro c hc
    rcases List.mem_append.mp hc with hc1 | hc2
    · exact isDig_not_ws (hDS c hc1)
    · rcases htl with rfl | ⟨a, ha, rfl⟩ | ⟨a, b, ha, hb, rfl⟩
      · simp at hc2
      · simp only [List.mem_cons, List.not_mem_nil, or_false] at hc2
        rcases hc2 with rfl | rfl
        · decide
        · exact isDig_not_ws ha
      · simp only [List.mem_cons, List.not_mem_nil, or_false] at hc2
        rcases hc2 with rfl | rfl | rfl
        · decide
        · exact isDig_not_ws ha
        · exact isDig_not_ws hb
  obtain ⟨v, hv, hc⟩ := pyFloatSigned_shape false DS tl hDS hne htl
  refine ⟨v, ?_, hc⟩
  rcases DS with _ | ⟨d, DS2⟩
  · exact absurd rfl hne
  have hd := hDS d (by simp)
  unfold pyFloatL
  rw [stripWs_eq_self hws]
  rw [List.cons_append]
  split
  · rename_i r heq
    injection heq with h1 h2
    exact absurd h1 (isDig_ne_minus hd)
  · rename_i r heq
    injection heq with h1 h2
    exact absurd h1 (isDig_ne_plus hd)
  · rename_i cs2 h1 h2
    rw [List.cons_append] at hv
    exact hv

/-- The whole float reader on a signed digit shape. -/
theorem pyFloatL_neg_digits (DS tl : List Char)
    (hDS : ∀ c ∈ DS, isDig c = true) (hne : DS ≠ []) (htl : GoodTail tl) :
    ∃ v : ℚ, pyFloatL ('-' :: (DS ++ tl)) = some v ∧ Cent v := by
  have hws : ∀ c ∈ DS ++ tl, isWsB c = false := by
    intro c hc
    rcases List.mem_append.mp hc with hc1 | hc2
    · exact isDig_not_ws (hDS c hc1)
    · rcases htl with rfl | ⟨a, ha, rfl⟩ | ⟨a, b, ha, hb, rfl⟩
      · simp at hc2
      · simp only [List.mem_cons, List.not_mem_nil, or_false] at hc2
        rcases hc2 with rfl | rfl
        · decide
        · exact isDig_not_ws ha
      · simp only [List.mem_cons, List.not_mem_nil, or_false] at hc2
        rcases hc2 with rfl | rfl | rfl
        · decide
        · exact isDig_not_ws ha
        · exact isDig_not_ws hb
  obtain ⟨v, hv, hc⟩ := pyFloatSigned_shape true DS tl hDS hne htl
  refine ⟨v, ?_, hc⟩
  have hws2 : ∀ c ∈ '-' :: (DS ++ tl), isWsB c = false := by
    intro c hc
    rcases List.mem_cons.mp hc with rfl | hc2
    · decide
    · exact hws c hc2
  unfold pyFloatL
  rw [stripWs_eq_self hws2]
  exact hv

/-- Every match of the quantity pattern parses, through
parse_qty_kwh_token, to a whole number of hundredths. -/
theorem matchQ_cent (cs m rest : List Char) (h : matchQ cs = some (m, rest)) :
    Cent (parse_qty_kwh_token (String.mk m)) := by
  unfold matchQ at h
  split at h
  · -- signed match
    rename_i r
    rcases hm0 : matchQcore r with _ | ⟨m0, rest0⟩
    · rw [hm0] at h; simp at h
    rw [hm0] at h
    simp only [Option.map_some', Option.some.injEq, Prod.mk.injEq] at h
    obtain ⟨hm, -⟩ := h
    obtain ⟨DS, tl, hDS, hne, hcl, htl, hwsm⟩ := matchQcore_shape r m0 rest0 hm0
    have hq : qtyClean ('-' :: m0) = '-' :: qtyClean m0 := by
      rfl
    have hws : ∀ c ∈ '-' :: m0, isWsB c = false := by
      intro c hc
      rcases List.mem_cons.mp hc with rfl | hc2
      · decide
      · exact hwsm c hc2
    obtain ⟨v, hv, hcent⟩ := pyFloatL_neg_digits DS tl hDS hne htl
    rw [← hm]
    unfold parse_qty_kwh_token
    rw [if_neg (by simp)]
    rw [show (String.mk ('-' :: m0)).data = '-' :: m0 from rfl]
    rw [stripWs_eq_self hws, hq, hcl, hv]
    exact hcent
  · -- unsigned match
    obtain ⟨DS, tl, hDS, hne, hcl, htl, hwsm⟩ := matchQcore_shape cs m rest h
    have hmne : m ≠ [] := by
      intro he
      rw [he] at hcl
      have : DS ++ tl = [] := by rw [← hcl]; rfl
      rcases List.append_eq_nil.mp this with ⟨h1, -⟩
      exact hne h1
    obtain ⟨v, hv, hcent⟩ := pyFloatL_digits DS tl hDS hne htl
    unfold parse_qty_kwh_token
    rw [if_neg (by simpa using hmne)]
    rw [show (String.mk m).data = m from rfl]
    rw [stripWs_eq_self hwsm, hcl, hv]
    exact hcent

/-- Every member of a scanner output originates in a successful match. -/
theorem scanAll_mem (m1 : List Char → Option (List Char × List Char)) :
    ∀ (n : ℕ) (cs m : List Char), m ∈ scanAll m1 n cs →
      ∃ cs0 rest, m1 cs0 = some (m, rest) := by
  intro n
  induction n with
  | zero => intro cs m hm; simp [scanAll] at hm
  | succ k ih =>
      intro cs m hm
      rcases cs with _ | ⟨c, r⟩
      · simp [scanAll] at hm
      · rw [scanAll] at hm
        rcases hmc : m1 (c :: r) with _ | ⟨p⟩
        · rw [hmc] at hm
          exact ih r m hm
        · rw [hmc] at hm
          rcases List.mem_cons.mp hm with rfl | hm2
          · exact ⟨c :: r, p.2, by rw [hmc]⟩
          · exact ih p.2 m hm2

/-- Python max with key abs returns a member of the list. -/
theorem maxAbsQ_mem (q : ℚ) (qs : List ℚ) : maxAbsQ q qs ∈ q :: qs := by
  induction qs generalizing q with
  | nil => simp [maxAbsQ]
  | cons x xs ih =>
      unfold maxAbsQ
      rw [List.foldl_cons]
      have h2 := ih (if |q| < |x| then x else q)
      unfold maxAbsQ at h2
      rcases List.mem_cons.mp h2 with hh | hh
    <;> [skip; · simp [hh]]
      rw [hh]
      by_cases hc : |q| < |x| <;> simp [hc]

/-- Every quantity candidate of a line is a whole number of hundredths. -/
theorem find_qty_candidates_cent (l : String) :
    ∀ q ∈ find_qty_candidates l, Cent q := by
  intro q hq
  unfold find_qty_candidates findallQ at hq
  rcases List.mem_map.mp hq with ⟨s, hs, rfl⟩
  rcases List.mem_map.mp hs with ⟨m, hms, rfl⟩
  obtain ⟨cs0, rest, hmc⟩ := scanAll_mem matchQ _ _ _ hms
  exact matchQ_cent cs0 m rest hmc

/-- The extracted quantity of every line is a whole number of hundredths. -/
theorem lineFields_qtd_cent (l : String) : Cent (lineFields l).qtd := by
  unfold lineFields
  rcases hq : find_qty_candidates l with _ | ⟨q, qs⟩
  · simpa using cent_zero
  · have hmem := maxAbsQ_mem q qs
    have : maxAbsQ q qs ∈ find_qty_candidates l := by rw [hq]; exact hmem
    simpa using find_qty_candidates_cent l _ this

theorem consumoQtdOf_cent (l : String) : Cent (consumoQtdOf l) := by
  unfold consumoQtdOf
  exact cent_ite _ cent_zero (cent_ite _ (lineFields_qtd_cent l) cent_zero)

theorem injetadaQtdOf_cent (l : String) : Cent (injetadaQtdOf l) := by
  unfold injetadaQtdOf
  exact cent_ite _ cent_zero
    (cent_ite _ cent_zero (cent_ite _ (cent_abs (lineFields_qtd_cent l)) cent_zero))

theorem bandeConsQtdOf_cent (l : String) : Cent (bandeConsQtdOf l) := by
  unfold bandeConsQtdOf
  exact cent_ite _ cent_zero (cent_ite _ cent_zero
    (cent_ite _ cent_zero (cent_ite _ (lineFields_qtd_cent l) cent_zero)))

theorem bandeCompQtdOf_cent (l : String) : Cent (bandeCompQtdOf l) := by
  unfold bandeCompQtdOf
  exact cent_ite _ cent_zero (cent_ite _ cent_zero (cent_ite _ cent_zero
    (cent_ite _ cent_zero (cent_ite _ (cent_abs (lineFields_qtd_cent l)) cent_zero))))

theorem map_cent (g : String → ℚ) (hg : ∀ l, Cent (g l)) (lines : List String) :
    Cent ((lines.map g).sum) := by
  refine cent_sum _ fun q hq => ?_
  rcases List.mem_map.mp hq with ⟨l, -, rfl⟩
  exact hg l

/-- C1: bucket totals are rounded once at emission.  The Result rounds each
bucket quantity to 3 decimals and each monetary total to 2 decimals of the
accumulator record; this theorem states that those emitted figures equal the
unrounded per-line sums rounded once (to 3 decimals for quantities, to 2 for
money).  The intermediate rounding to 2 decimals inside
classify_and_sum_lines is extensionally invisible because every per-line
quantity and value is a whole number of hundredths. -/
theorem C1_bucket_totals_rounded_once (lines : List String) :
    roundTo 3 ((classify_and_sum_lines lines).consumo.qtd) =
      roundTo 3 ((lines.map consumoQtdOf).sum) ∧
    roundTo 3 ((classify_and_sum_lines lines).injetada.qtd) =
      roundTo 3 ((lines.map injetadaQtdOf).sum) ∧
    roundTo 3 ((classify_and_sum_lines lines).bande_consumida.qtd) =
      roundTo 3 ((lines.map bandeConsQtdOf).sum) ∧
    roundTo 3 ((classify_and_sum_lines lines).bande_comp.qtd) =
      roundTo 3 ((lines.map bandeCompQtdOf).sum) ∧
    roundTo 2 ((classify_and_sum_lines lines).consumo.valor) =
      roundTo 2 ((lines.map consumoValorOf).sum) ∧
    roundTo 2 ((classify_and_sum_lines lines).injetada.valor) =
      roundTo 2 ((lines.map injetadaValorOf).sum) ∧
    roundTo 2 ((classify_and_sum_lines lines).bande_consumida.valor) =
      roundTo 2 ((lines.map bandeConsValorOf).sum) ∧
    roundTo 2 ((classify_and_sum_lines lines).bande_comp.valor) =
      roundTo 2 ((lines.map bandeCompValorOf).sum) ∧
    roundTo 2 ((classify_and_sum_lines lines).outros) =
      roundTo 2 ((lines.map outroValorOf).sum) := by
  have e1 := foldl_field (fun t => t.consumo.qtd) consumoQtdOf stepLine_consumo_qtd lines Sums.init
  have e2 := foldl_field (fun t => t.injetada.qtd) injetadaQtdOf stepLine_injetada_qtd lines Sums.init
  have e3 := foldl_field (fun t => t.bande_consumida.qtd) bandeConsQtdOf stepLine_bandeCons_qtd lines Sums.init
  have e4 := foldl_field (fun t => t.bande_comp.qtd) bandeCompQtdOf stepLine_bandeComp_qtd lines Sums.init
  have e5 := foldl_field (fun t => t.consumo.valor) consumoValorOf stepLine_consumo_valor lines Sums.init
  have e6 := foldl_field (fun t => t.injetada.valor) injetadaValorOf stepLine_injetada_valor lines Sums.init
  have e7 := foldl_field (fun t => t.bande_consumida.valor) bandeConsValorOf stepLine_bandeCons_valor lines Sums.init
  have e8 := foldl_field (fun t => t.bande_comp.valor) bandeCompValorOf stepLine_bandeComp_valor lines Sums.init
  have e9 := foldl_field (fun t => t.outros) outroValorOf stepLine_outros lines Sums.init
  simp only [Sums.init, Bucket.zero, zero_add] at e1 e2 e3 e4 e5 e6 e7 e8 e9
  simp only [classify_and_sum_lines, roundBucket, Sums.init, Bucket.zero]
  rw [e1, e2, e3, e4, e5, e6, e7, e8, e9]
  exact ⟨by rw [roundTo2_cent (map_cent _ consumoQtdOf_cent lines)],
    by rw [roundTo2_cent (map_cent _ injetadaQtdOf_cent lines)],
    by rw [roundTo2_cent (map_cent _ bandeConsQtdOf_cent lines)],
    by rw [roundTo2_cent (map_cent _ bandeCompQtdOf_cent lines)],
    roundTo_idem 2 _, roundTo_idem 2 _, roundTo_idem 2 _, roundTo_idem 2 _, roundTo_idem 2 _⟩

/-- C2 counterexample: on a document whose items block is the single claimed
line and whose tax block is the claimed tax block, the pipeline does not
report pis = 50.00; the windowed tax search sees only two monetary tokens,
and the PIS label probe finds no monetary token after the final PIS, so the
reported pis is 0.0. -/
theorem C2_counterexample :
    ¬ ((resultOf "ENERGIA ELET CONSUMO kWh 350 0,75000 262,50 15,00 20,00\nICMS 300,00 50,00 PIS").consumo_kwh.qtd_kwh = 350 ∧
       (resultOf "ENERGIA ELET CONSUMO kWh 350 0,75000 262,50 15,00 20,00\nICMS 300,00 50,00 PIS").consumo_kwh.valor = 262.50 ∧
       (resultOf "ENERGIA ELET CONSUMO kWh 350 0,75000 262,50 15,00 20,00\nICMS 300,00 50,00 PIS").consumo_kwh.icms = 300 ∧
       (resultOf "ENERGIA ELET CONSUMO kWh 350 0,75000 262,50 15,00 20,00\nICMS 300,00 50,00 PIS").consumo_kwh.cofins = 0 ∧
       (resultOf "ENERGIA ELET CONSUMO kWh 350 0,75000 262,50 15,00 20,00\nICMS 300,00 50,00 PIS").consumo_kwh.pis = 50) := by
  intro h
  exact absurd h.2.2.2.2 (by decide)

/-- C2 amended: the document yields consumed-energy quantity 350.0 and value
262.50 as claimed, and icms = 300.00 and cofins = 0.00, but pis = 0.00: with
only two monetary tokens inside the ICMS..PIS window the extractor falls
back to the label probes, and no monetary token follows the PIS label. -/
theorem C2_end_to_end :
    (resultOf "ENERGIA ELET CONSUMO kWh 350 0,75000 262,50 15,00 20,00\nICMS 300,00 50,00 PIS").consumo_kwh.qtd_kwh = 350 ∧
    (resultOf "ENERGIA ELET CONSUMO kWh 350 0,75000 262,50 15,00 20,00\nICMS 300,00 50,00 PIS").consumo_kwh.valor = 262.50 ∧
    (resultOf "ENERGIA ELET CONSUMO kWh 350 0,75000 262,50 15,00 20,00\nICMS 300,00 50,00 PIS").consumo_kwh.icms = 300 ∧
    (resultOf "ENERGIA ELET CONSUMO kWh 350 0,75000 262,50 15,00 20,00\nICMS 300,00 50,00 PIS").consumo_kwh.cofins = 0 ∧
    (resultOf "ENERGIA ELET CONSUMO kWh 350 0,75000 262,50 15,00 20,00\nICMS 300,00 50,00 PIS").consumo_kwh.pis = 0 :=
  ⟨by decide, by decide, by decide, by decide, by decide⟩

/-- C3 counterexample: the only unclassified figure in the Result is the
classification-derived other bucket; it does not equal the claimed global
cross-check figure (total of all monetary tokens in the document minus the
four named bucket values): on this document the bucket reports 50.00 while
the cross-check formula gives 60.00. -/
theorem C3_counterexample :
    (resultOf "ENERGIA ELET CONSUMO 100,00\nFOO 50,00 10,00").outros_valores ≠
      specCrossCheckFigure "ENERGIA ELET CONSUMO 100,00\nFOO 50,00 10,00" ∧
    (resultOf "ENERGIA ELET CONSUMO 100,00\nFOO 50,00 10,00").outros_valores = 50 ∧
    specCrossCheckFigure "ENERGIA ELET CONSUMO 100,00\nFOO 50,00 10,00" = 60 :=
  ⟨by decide, by decide, by decide⟩

/-- C3 amended: the Result carries exactly one other figure, the
classification-derived bucket: the once-rounded sum, over the located block
lines, of the line value of every processed line assigned to no named
bucket.  No global-token-scan cross-check figure is computed or reported. -/
theorem C3_other_bucket (text : String) :
    (resultOf text).outros_valores =
      roundTo 2 (((extract_invoice_items_block text).map outroValorOf).sum) := by
  have e9 := foldl_field (fun t => t.outros) outroValorOf stepLine_outros
    (extract_invoice_items_block text) Sums.init
  simp only [Sums.init, zero_add] at e9
  simp only [resultOf, classify_and_sum_lines, Sums.init]
  rw [e9, roundTo_idem]

/-- C4: the tax-block extractor.  When the ICMS..PIS window is found and the
400-character snippet from its start holds at least three monetary tokens,
the result is the last three of them, in document order, as ICMS, COFINS and
PIS; otherwise the result is the fallback of three label probes
(probeAfterLabel formalises "the first monetary token immediately following
the literal label anywhere in the document"), each defaulting to zero. -/
theorem C4_tax_block_extractor (text : String) :
    (∀ i vals, windowScan 0 (pyUp text.data) = some i →
       vals = (scanAll matchM ((((pyUp text.data).drop i).take 400).length + 1)
                (((pyUp text.data).drop i).take 400)).map String.mk →
       3 ≤ vals.length →
       extract_tax_block_values text =
         ⟨roundTo 2 (parse_currency (vals.getD (vals.length - 3) "")),
          roundTo 2 (parse_currency (vals.getD (vals.length - 2) "")),
          roundTo 2 (parse_currency (vals.getD (vals.length - 1) ""))⟩) ∧
    (∀ i, windowScan 0 (pyUp text.data) = some i →
       ¬ 3 ≤ ((scanAll matchM ((((pyUp text.data).drop i).take 400).length + 1)
                (((pyUp text.data).drop i).take 400)).map String.mk).length →
       extract_tax_block_values text = taxFallback text) ∧
    (windowScan 0 (pyUp text.data) = none →
       extract_tax_block_values text = taxFallback text) ∧
    taxFallback text =
      ⟨roundTo 2 (((probeAfterLabel "ICMS" text).map parse_currency).getD 0),
       roundTo 2 (((probeAfterLabel "COFINS" text).map parse_currency).getD 0),
       roundTo 2 (((probeAfterLabel "PIS" text).map parse_currency).getD 0)⟩ := by
  refine ⟨?_, ?_, ?_, ?_⟩
  · intro i vals hw hv h3
    subst hv
    simp only [extract_tax_block_values]
    rw [hw]
    exact if_pos h3
  · intro i hw h3
    simp only [extract_tax_block_values]
    rw [hw]
    exact if_neg h3
  · intro hw
    simp only [extract_tax_block_values]
    rw [hw]
  · unfold taxFallback
    rcases probeAfterLabel "ICMS" text with _ | m1 <;>
      rcases probeAfterLabel "COFINS" text with _ | m2 <;>
        rcases probeAfterLabel "PIS" text with _ | m3 <;> rfl

/-- C4 witness: the synthetic block of the claim is handled by the windowed
branch and yields icms = 10.00, cofins = 20.00, pis = 5.50. -/
theorem C4_witness :
    windowScan 0 (pyUp "ICMS ... 10,00 20,00 5,50 PIS".data) = some 0 ∧
    extract_tax_block_values "ICMS ... 10,00 20,00 5,50 PIS" = ⟨10, 20, 5.5⟩ := by
  refine ⟨by decide, ?_⟩
  exact ((C4_tax_block_extractor "ICMS ... 10,00 20,00 5,50 PIS").1 0 _
    (by decide) rfl (by decide)).trans (by decide)

/-- C5: every tax field of the Result is exactly the corresponding figure of
the tax-block extractor; the per-line tax guesses accumulated in the bucket
records never reach the Result. -/
theorem C5_taxes_authoritative (text : String) :
    (resultOf text).energia_injetada.pis = (extract_tax_block_values text).pis ∧
    (resultOf text).energia_injetada.cofins = (extract_tax_block_values text).cofins ∧
    (resultOf text).energia_injetada.icms = (extract_tax_block_values text).icms ∧
    (resultOf text).consumo_kwh.pis = (extract_tax_block_values text).pis ∧
    (resultOf text).consumo_kwh.cofins = (extract_tax_block_values text).cofins ∧
    (resultOf text).consumo_kwh.icms = (extract_tax_block_values text).icms ∧
    (resultOf text).bandeira_consumida.pis = (extract_tax_block_values text).pis ∧
    (resultOf text).bandeira_consumida.cofins = (extract_tax_block_values text).cofins ∧
    (resultOf text).bandeira_consumida.icms = (extract_tax_block_values text).icms ∧
    (resultOf text).bandeira_compensada.pis = (extract_tax_block_values text).pis ∧
    (resultOf text).bandeira_compensada.cofins = (extract_tax_block_values text).cofins ∧
    (resultOf text).bandeira_compensada.icms = (extract_tax_block_values text).icms :=
  ⟨rfl, rfl, rfl, rfl, rfl, rfl, rfl, rfl, rfl, rfl, rfl, rfl⟩

/-- C6: on a classified line with exactly two monetary tokens, the first is
the value; the second becomes ICMS exactly when it does not exceed the
value, and is otherwise booked in the cofins field. -/
theorem C6_two_token_heuristic (line : String) (t1 t2 : String)
    (hm : findallM line = [t1, t2]) (hns : isHeaderSkip line = false) :
    (lineFields line).valor = parse_currency t1 ∧
    (lineFields line).icms =
      (if parse_currency t2 ≤ parse_currency t1 then parse_currency t2 else 0) ∧
    (lineFields line).cofins =
      (if parse_currency t2 ≤ parse_currency t1 then 0 else parse_currency t2) := by
  unfold lineFields
  rw [hm]
  norm_num
  split_ifs with h1 h2 h3
  · exact h1 h2
  · rfl
  · rfl
  · exact absurd (fun h => absurd h h3) h1

/-- C6 witness: a plain line with two monetary tokens, the second below the
first. -/
theorem C6_witness :
    findallM "FOO 50,00 10,00" = ["50,00", "10,00"] ∧
    (lineFields "FOO 50,00 10,00").valor = 50 ∧
    (lineFields "FOO 50,00 10,00").icms = 10 ∧
    (lineFields "FOO 50,00 10,00").cofins = 0 := by
  have h := C6_two_token_heuristic "FOO 50,00 10,00" "50,00" "10,00" (by decide) (by decide)
  exact ⟨by decide, h.1.trans (by decide), (h.2.1).trans (by decide), (h.2.2).trans (by decide)⟩

/-- C7 counterexample: on a document with no markers, the locator returns the
nonblank lines of the whole text without trimming their whitespace, so the
claimed whitespace-trimmed output is wrong. -/
theorem C7_counterexample :
    extract_invoice_items_block (String.mk ['n','o',' ','m','a','r','k','e','r','s','\n',' ',' ','X',' ',' ']) ≠
      trimmedNonEmptyLines (String.mk ['n','o',' ','m','a','r','k','e','r','s','\n',' ',' ','X',' ',' ']) := by
  decide

/-- C7 (amended): the locator is a three-stage fallback.  If the primary
marker pair is found (start strictly before end) the output is the nonblank
trimmed lines of the slice from the start index to the end index plus 29
characters (the length of the primary end marker).  Otherwise, if the
secondary pair "ENERGIA ELET" / "ILUMIN" is found, the output is the same
slice rule at those indices — the slice still extends 29 characters past the
secondary end index, the length of the PRIMARY end marker, not of "ILUMIN".
If both pairs fail the output is every nonblank line of the whole document,
NOT whitespace-trimmed. -/
theorem C7_block_locator (text : String) :
    (∀ s e,
      markerPick "ENERGIA ELET CONSUMO".data "CONT ILUMIN PUBLICA MUNICIPIO".data
          (pyUp text.data) = some (s, e) →
      extract_invoice_items_block text = blockLinesAt text s e) ∧
    (markerPick "ENERGIA ELET CONSUMO".data "CONT ILUMIN PUBLICA MUNICIPIO".data
        (pyUp text.data) = none →
     ∀ s e,
      markerPick "ENERGIA ELET".data "ILUMIN".data (pyUp text.data) = some (s, e) →
      extract_invoice_items_block text = blockLinesAt text s e) ∧
    (markerPick "ENERGIA ELET CONSUMO".data "CONT ILUMIN PUBLICA MUNICIPIO".data
        (pyUp text.data) = none →
     markerPick "ENERGIA ELET".data "ILUMIN".data (pyUp text.data) = none →
      extract_invoice_items_block text =
        ((linesOf text.data).filter (fun l => stripWs l ≠ [])).map String.mk) := by
  refine ⟨?_, ?_, ?_⟩
  · intro s e h
    simp only [extract_invoice_items_block]
    rw [h]
  · intro h1 s e h2
    simp only [extract_invoice_items_block]
    rw [h1, h2]
  · intro h1 h2
    simp only [extract_invoice_items_block]
    rw [h1, h2]

/-- C7 witness: a document without any marker, whose second line carries
surrounding whitespace that the final fallback keeps. -/
theorem C7_witness :
    markerPick "ENERGIA ELET CONSUMO".data "CONT ILUMIN PUBLICA MUNICIPIO".data
        (pyUp (String.mk ['p','l','a','i','n','\n',' ',' ','Y',' ',' ']).data) = none ∧
    extract_invoice_items_block (String.mk ['p','l','a','i','n','\n',' ',' ','Y',' ',' ']) =
      [String.mk ['p','l','a','i','n'], String.mk [' ',' ','Y',' ',' ']] := by
  refine ⟨by decide, ?_⟩
  have h := (C7_block_locator (String.mk ['p','l','a','i','n','\n',' ',' ','Y',' ',' '])).2.2
    (by decide) (by decide)
  exact h.trans (by decide)

/-- C8: the numeral parser is total by construction (it is a function into
the rationals), returns 0 when both the direct parse and the decimal-pattern
fallback fail, and meets the six example values of the specification. -/
theorem C8_numeral_total :
    parse_currency "1.234,56" = mkRat 123456 100 ∧
    parse_currency "-3.714,00" = -3714 ∧
    parse_currency "(500,00)" = -500 ∧
    parse_currency "" = 0 ∧
    parse_currency "garbage" = 0 ∧
    parse_currency "R$ 12,5" = mkRat 125 10 ∧
    ∀ s : String, pyFloatL (cleanCurrency s.data) = none →
      searchDecimal (cleanCurrency s.data) = none → parse_currency s = 0 := by
  refine ⟨by decide, by decide, by decide, by decide, by decide, by decide, ?_⟩
  intro s h1 h2
  unfold parse_currency
  split_ifs with hs
  · rfl
  · simp only [h1, h2]

/-- C8 witness: the fallback clause applied at a string with no numeric
shape at all. -/
theorem C8_witness :
    pyFloatL (cleanCurrency "abc".data) = none ∧
    searchDecimal (cleanCurrency "abc".data) = none ∧
    parse_currency "abc" = 0 :=
  ⟨by decide, by decide, C8_numeral_total.2.2.2.2.2.2 "abc" (by decide) (by decide)⟩

/-- C9: the core pipeline on the empty document yields a record with all
five bucket quantities and values 0, all three tax figures 0, a null unit
tariff, and every metadata field absent.  Totality is by construction: the
pipeline is a function. -/
theorem C9_empty_input :
    resultOf "" =
      { energia_injetada := ⟨0, 0, 0, 0, 0⟩,
        consumo_kwh := ⟨0, 0, 0, 0, 0, none⟩,
        bandeira_consumida := ⟨0, 0, 0, 0, 0⟩,
        bandeira_compensada := ⟨0, 0, 0, 0, 0⟩,
        outros_valores := 0,
        dados_fatura := ⟨none, none, none, none⟩ } := by
  decide

/-- C10: the unit tariff is guarded against division by zero.  When the
classified consumed-energy quantity total is zero the record carries no
tariff; when it is nonzero the tariff is the value total divided by the
quantity total, rounded to 6 decimals. -/
theorem C10_tarifa_guard (text : String) :
    ((classify_and_sum_lines (extract_invoice_items_block text)).consumo.qtd = 0 →
      (resultOf text).consumo_kwh.tarifa_unit = none) ∧
    ((classify_and_sum_lines (extract_invoice_items_block text)).consumo.qtd ≠ 0 →
      (resultOf text).consumo_kwh.tarifa_unit =
        some (roundTo 6
          ((classify_and_sum_lines (extract_invoice_items_block text)).consumo.valor /
           (classify_and_sum_lines (extract_invoice_items_block text)).consumo.qtd))) := by
  constructor
  · intro h
    simp only [resultOf]
    rw [if_pos h]
  · intro h
    simp only [resultOf]
    rw [if_neg h]

/-- C10 witness: the empty document takes the null branch; a one-line
document with a consumed-energy charge takes the division branch. -/
theorem C10_witness :
    (resultOf "").consumo_kwh.tarifa_unit = none ∧
    (resultOf "ENERGIA ELET CONSUMO 10 100,00").consumo_kwh.tarifa_unit = some 1 := by
  refine ⟨(C10_tarifa_guard "").1 (by decide), ?_⟩
  have h := (C10_tarifa_guard "ENERGIA ELET CONSUMO 10 100,00").2 (by decide)
  exact h.trans (by decide)
